import Mathlib

/-
Verification of the diff-to-rows transformation of the Markdown-Analyzer
repository (client/src/components/DiffViewer.jsx).  The component calls the
external diff library on the raw texts, then walks the returned parts and
emits one row per physical line, threading two 1-based line counters.

String operations of the source (split on a newline, the regex newline
normalization, trim) are embedded as structurally recursive functions over
the character list of a string so that every definition evaluates inside the
kernel.
-/

namespace MD

/-- One character-level pass performing the two newline replacements of the
source normalizeText, text.replace of CRLF by LF followed by text.replace of
CR by LF: a CRLF pair becomes one LF, a lone CR becomes LF. -/
def normChars : List Char → List Char
  | [] => []
  | '\r' :: '\n' :: rest => '\n' :: normChars rest
  | '\r' :: rest => '\n' :: normChars rest
  | c :: rest => c :: normChars rest

/-- The normalizeText helper of DiffViewer. -/
def normalizeText (text : String) : String := ⟨normChars text.data⟩

/-- JavaScript string split on a single newline character, as used by the
source in part.value.split and normalizeText(...).split: the empty string
yields one empty segment, and a trailing newline yields a final empty
segment. -/
def splitNl : List Char → List String
  | [] => [""]
  | c :: rest =>
    if c = '\n' then "" :: splitNl rest
    else
      match splitNl rest with
      | [] => [⟨[c]⟩]
      | s :: ss => ⟨c :: s.data⟩ :: ss

/-- Split a string on the newline character, JavaScript-style. -/
def jsSplitNl (s : String) : List String := splitNl s.data

/-- The trailing-empty-segment pop of getDiffRows: if the last element of the
split is the empty string it is removed. -/
def popFinalEmpty (lines : List String) : List String :=
  if lines.getLast? = some "" then lines.dropLast else lines

/-- A diff part as consumed by getDiffRows: the added/removed tags and the
text blob of the run (the count field of the library is unused by the
component and omitted). -/
structure DiffPart where
  added : Bool
  removed : Bool
  value : String
  deriving DecidableEq

/-- A row of the diff view, with kind one of the source tags "add", "del",
"equal", and the two optional 1-based line numbers. -/
structure DiffRow where
  oldIdx : Option Nat
  newIdx : Option Nat
  kind : String
  text : String
  deriving DecidableEq

/-- Lines of one diff part: part.value split on the newline character with a
trailing empty element popped. -/
def partLines (value : String) : List String :=
  popFinalEmpty (jsSplitNl value)

/-- The inner loop of getDiffRows over the lines of one part, threading the
two 1-based counters; the added tag is tested before the removed tag, as in
the source. Returns the emitted rows and the updated counters. -/
def emitLines (a r : Bool) : List String → Nat → Nat → List DiffRow × Nat × Nat
  | [], o, n => ([], o, n)
  | line :: rest, o, n =>
    if a then
      let t := emitLines a r rest o (n + 1)
      (⟨none, some n, "add", line⟩ :: t.1, t.2)
    else if r then
      let t := emitLines a r rest (o + 1) n
      (⟨some o, none, "del", line⟩ :: t.1, t.2)
    else
      let t := emitLines a r rest (o + 1) (n + 1)
      (⟨some o, some n, "equal", line⟩ :: t.1, t.2)

/-- The outer loop of getDiffRows over the diff parts, in emitted order. -/
def getDiffRowsAux : List DiffPart → Nat → Nat → List DiffRow
  | [], _, _ => []
  | p :: ps, o, n =>
    let t := emitLines p.added p.removed (partLines p.value) o n
    t.1 ++ getDiffRowsAux ps t.2.1 t.2.2

/-- getDiffRows of DiffViewer, as a function of the diff parts it iterates
(the source reads them from the enclosing closure); both counters start
at 1. -/
def getDiffRows (parts : List DiffPart) : List DiffRow :=
  getDiffRowsAux parts 1 1

/-- Whitespace trim of a character list, the model of the string trim used by
the diff library's whitespace-insensitive line comparison. -/
def trimChars (l : List Char) : List Char :=
  ((l.dropWhile Char.isWhitespace).reverse.dropWhile Char.isWhitespace).reverse

/-- Modelled from the spec: the whitespace-insensitive line equality of the
external diff primitive (the ignoreWhitespace option the component passes):
two line tokens are equal when they agree after trimming surrounding
whitespace. -/
def tokEq (a b : String) : Bool := trimChars a.data == trimChars b.data

/-- Reattach the newline delimiter to every segment but the last and drop a
final empty segment: together with jsSplitNl this cuts a text into line
tokens each ending in its newline, the last one possibly bare. -/
def attachNl : List String → List String
  | [] => []
  | [s] => if s = "" then [] else [s]
  | s :: rest => (s ++ "\n") :: attachNl rest

/-- Modelled from the spec: the line tokenizer of the external diff
primitive, which is missing from this repository. A text is cut into tokens
delimited by a newline kept at the end of its token; the empty text has no
tokens and a trailing newline produces no empty token. -/
def tokenize (t : String) : List String := attachNl (jsSplitNl t)

/-- One atomic edit of the modelled diff primitive: a token kept (carrying
the new side's text, as the library reports unchanged runs), deleted from the
old side, or inserted from the new side. -/
inductive Op where
  | keep (t : String)
  | del (t : String)
  | ins (t : String)
  deriving DecidableEq

/-- Modelled from the spec: a fuel-bounded minimal edit script between two
token lists; equal heads are kept, otherwise the cheaper of delete-first and
insert-first is taken, deletions preferred on ties (removed runs precede
added runs, as the spec's mixed case requires). The fuel is the total length
of the two lists, which the top-level wrapper supplies, so the zero-fuel
branch is never reached. -/
def diffOpsF : Nat → List String → List String → List Op
  | _, [], ns => ns.map Op.ins
  | _, o :: os, [] => (o :: os).map Op.del
  | 0, _, _ => []
  | fuel + 1, o :: os, n :: ns =>
    if tokEq o n then Op.keep n :: diffOpsF fuel os ns
    else
      let d := diffOpsF fuel os (n :: ns)
      let i := diffOpsF fuel (o :: os) ns
      if d.length ≤ i.length then Op.del o :: d else Op.ins n :: i

/-- The diff part a single edit becomes. -/
def opPart : Op → DiffPart
  | .keep t => ⟨false, false, t⟩
  | .del t => ⟨false, true, t⟩
  | .ins t => ⟨true, false, t⟩

/-- The token text an edit carries. -/
def opText : Op → String
  | .keep t => t
  | .del t => t
  | .ins t => t

/-- Whether an edit belongs to the run an already-built part represents. -/
def sameKind : Op → DiffPart → Bool
  | .keep _, p => !p.added && !p.removed
  | .del _, p => !p.added && p.removed
  | .ins _, p => p.added

/-- Modelled from the spec: merging consecutive edits of one kind into the
contiguous tagged runs the primitive reports, each carrying the concatenated
text of its tokens. -/
def mergeOps : List Op → List DiffPart
  | [] => []
  | op :: ops =>
    match mergeOps ops with
    | [] => [opPart op]
    | p :: ps =>
      if sameKind op p then ⟨p.added, p.removed, opText op ++ p.value⟩ :: ps
      else opPart op :: p :: ps

/-- Modelled from the spec: diffLines of the external diff library, which is
not part of this repository; as the component invokes it, with
ignoreWhitespace, on the un-normalized original texts. Produces an ordered
minimal sequence of added/removed/unchanged line runs. -/
def specDiffLines (oldContent newContent : String) : List DiffPart :=
  let os := tokenize oldContent
  let ns := tokenize newContent
  mergeOps (diffOpsF (os.length + ns.length) os ns)

/-- The full pipeline of DiffViewer: the diff of the raw texts fed to
getDiffRows. -/
def buildRows (oldContent newContent : String) : List DiffRow :=
  getDiffRows (specDiffLines oldContent newContent)

/-- Line count of a text as the amended count invariant uses it: normalize,
split on the newline character, and do not count a trailing empty segment (so
the empty text has zero lines and a final newline adds none). -/
def lineCount (t : String) : Nat :=
  (popFinalEmpty (jsSplitNl (normalizeText t))).length

/-- Total lines contributed by parts that carry an old-side line number. -/
def oldSideLineSum (parts : List DiffPart) : Nat :=
  ((parts.filter fun p => !p.added).map fun p => (partLines p.value).length).sum

/-- Total lines contributed by parts that carry a new-side line number. -/
def newSideLineSum (parts : List DiffPart) : Nat :=
  ((parts.filter fun p => p.added || !p.removed).map fun p =>
    (partLines p.value).length).sum

theorem range1_append (s m n : Nat) :
    List.range' s m ++ List.range' (s + m) n = List.range' s (m + n) := by
  have h := List.range'_append s m n 1
  simp only [Nat.one_mul] at h
  rw [Nat.add_comm n m] at h
  exact h

theorem range1_pairwise (s n : Nat) : (List.range' s n).Pairwise (· < ·) := by
  induction n generalizing s with
  | zero => simp
  | succ k ih =>
    rw [List.range'_succ]
    refine List.Pairwise.cons ?_ (ih (s + 1))
    intro m hm
    have := (List.mem_range'_1.1 hm).1
    omega

theorem countP_isSome_filterMap {α β : Type} (f : α → Option β) (l : List α) :
    l.countP (fun a => (f a).isSome) = (l.filterMap f).length := by
  induction l with
  | nil => simp
  | cons x xs ih =>
    cases hfx : f x <;>
      simp [List.countP_cons, List.filterMap_cons, hfx, ih]

theorem emitLines_snd (a r : Bool) (lines : List String) (o n : Nat) :
    (emitLines a r lines o n).2 =
      ((if a then o else o + lines.length),
        (if a || !r then n + lines.length else n)) := by
  induction lines generalizing o n with
  | nil => cases a <;> cases r <;> simp [emitLines]
  | cons x rest ih =>
    cases a <;> cases r <;> simp [emitLines, ih] <;> omega

theorem emitLines_oldIdx (a r : Bool) (lines : List String) (o n : Nat) :
    (emitLines a r lines o n).1.filterMap (fun row => row.oldIdx) =
      (if a then [] else List.range' o lines.length) := by
  induction lines generalizing o n with
  | nil => cases a <;> simp [emitLines]
  | cons x rest ih =>
    cases a <;> cases r <;> simp [emitLines, ih, List.range'_succ]

theorem emitLines_newIdx (a r : Bool) (lines : List String) (o n : Nat) :
    (emitLines a r lines o n).1.filterMap (fun row => row.newIdx) =
      (if a || !r then List.range' n lines.length else []) := by
  induction lines generalizing o n with
  | nil => cases a <;> cases r <;> simp [emitLines]
  | cons x rest ih =>
    cases a <;> cases r <;> simp [emitLines, ih, List.range'_succ]

theorem emitLines_shape (a r : Bool) (lines : List String) (o n : Nat) :
    ∀ row ∈ (emitLines a r lines o n).1,
      (∃ k t, row = ⟨none, some k, "add", t⟩) ∨
      (∃ k t, row = ⟨some k, none, "del", t⟩) ∨
      (∃ j k t, row = ⟨some j, some k, "equal", t⟩) := by
  induction lines generalizing o n with
  | nil => simp [emitLines]
  | cons x rest ih =>
    intro row hrow
    cases a with
    | true =>
      simp only [emitLines, if_true] at hrow
      rcases List.mem_cons.1 hrow with rfl | h
      · exact Or.inl ⟨n, x, rfl⟩
      · exact ih o (n + 1) row h
    | false =>
      cases r with
      | true =>
        simp [emitLines] at hrow
        rcases hrow with rfl | h
        · exact Or.inr (Or.inl ⟨o, x, rfl⟩)
        · exact ih (o + 1) n row h
      | false =>
        simp [emitLines] at hrow
        rcases hrow with rfl | h
        · exact Or.inr (Or.inr ⟨o, n, x, rfl⟩)
        · exact ih (o + 1) (n + 1) row h

theorem getDiffRowsAux_oldIdx (parts : List DiffPart) :
    ∀ o n : Nat, (getDiffRowsAux parts o n).filterMap (fun row => row.oldIdx) =
      List.range' o (oldSideLineSum parts) := by
  induction parts with
  | nil => intro o n; simp [getDiffRowsAux, oldSideLineSum]
  | cons p ps ih =>
    intro o n
    simp only [getDiffRowsAux, List.filterMap_append, emitLines_oldIdx,
      emitLines_snd, ih]
    cases hp : p.added with
    | true => simp [oldSideLineSum, List.filter_cons, hp]
    | false =>
      simp [oldSideLineSum, List.filter_cons, hp, range1_append, Nat.add_comm]

theorem getDiffRowsAux_newIdx (parts : List DiffPart) :
    ∀ o n : Nat, (getDiffRowsAux parts o n).filterMap (fun row => row.newIdx) =
      List.range' n (newSideLineSum parts) := by
  induction parts with
  | nil => intro o n; simp [getDiffRowsAux, newSideLineSum]
  | cons p ps ih =>
    intro o n
    simp only [getDiffRowsAux, List.filterMap_append, emitLines_newIdx,
      emitLines_snd, ih]
    cases hp : p.added <;> cases hr : p.removed <;>
      simp [newSideLineSum, List.filter_cons, hp, hr, range1_append,
        Nat.add_comm]

theorem diffOpsF_self (l : List String) : ∀ fuel : Nat, l.length ≤ fuel →
    diffOpsF fuel l l = l.map Op.keep := by
  induction l with
  | nil => intro fuel _; cases fuel <;> simp [diffOpsF]
  | cons x xs ih =>
    intro fuel hf
    cases fuel with
    | zero => simp at hf
    | succ f =>
      have hx : tokEq x x = true := by simp [tokEq]
      simp [diffOpsF, hx, ih f (by simpa using Nat.lt_succ_iff.mp hf)]

theorem mergeOps_keep (l : List String) :
    ∀ p ∈ mergeOps (l.map Op.keep), p.added = false ∧ p.removed = false := by
  induction l with
  | nil => simp [mergeOps]
  | cons x xs ih =>
    intro p hp
    simp only [List.map_cons, mergeOps] at hp
    cases hm : mergeOps (xs.map Op.keep) with
    | nil => rw [hm] at hp; simp [opPart] at hp; simp [hp]
    | cons q qs =>
      have hq := ih q (by rw [hm]; exact List.mem_cons_self q qs)
      rw [hm] at hp
      simp only [sameKind, hq.1, hq.2, Bool.not_false, Bool.and_self,
        if_true] at hp
      rcases List.mem_cons.1 hp with rfl | h
      · exact ⟨rfl, rfl⟩
      · exact ih p (by rw [hm]; exact List.mem_cons_of_mem q h)

theorem emitLines_equal (lines : List String) (n : Nat) :
    ∀ row ∈ (emitLines false false lines n n).1,
      row.kind = "equal" ∧ row.oldIdx = row.newIdx := by
  induction lines generalizing n with
  | nil => simp [emitLines]
  | cons x rest ih =>
    intro row hrow
    simp [emitLines] at hrow
    rcases hrow with rfl | h
    · exact ⟨rfl, rfl⟩
    · exact ih (n + 1) row h

theorem getDiffRowsAux_equal (parts : List DiffPart)
    (h : ∀ p ∈ parts, p.added = false ∧ p.removed = false) :
    ∀ n : Nat, ∀ row ∈ getDiffRowsAux parts n n,
      row.kind = "equal" ∧ row.oldIdx = row.newIdx := by
  induction parts with
  | nil => simp [getDiffRowsAux]
  | cons p ps ih =>
    intro n row hrow
    have hp := h p (List.mem_cons_self p ps)
    simp only [getDiffRowsAux, hp.1, hp.2, List.mem_append] at hrow
    rcases hrow with hrow | hrow
    · exact emitLines_equal (partLines p.value) n row hrow
    · rw [emitLines_snd] at hrow
      simp only [Bool.or_self, Bool.not_false, if_false, if_true] at hrow
      exact ih (fun q hq => h q (List.mem_cons_of_mem p hq))
        (n + (partLines p.value).length) row hrow

theorem getDiffRowsAux_skip_empty (l1 : List DiffPart) (l2 : List DiffPart)
    (p : DiffPart) (hp : p.value = "") : ∀ o n : Nat,
    getDiffRowsAux (l1 ++ p :: l2) o n = getDiffRowsAux (l1 ++ l2) o n := by
  induction l1 with
  | nil =>
    intro o n
    have hl : partLines p.value = [] := by rw [hp]; decide
    simp [getDiffRowsAux, hl, emitLines]
  | cons q l1 ih =>
    intro o n
    simp only [List.cons_append, getDiffRowsAux, List.append_eq, ih]

theorem countP_oldIdx (l : List DiffRow) :
    l.countP (fun row => row.oldIdx.isSome) =
      (l.filterMap (fun row => row.oldIdx)).length :=
  countP_isSome_filterMap (fun row => row.oldIdx) l

theorem countP_newIdx (l : List DiffRow) :
    l.countP (fun row => row.newIdx.isSome) =
      (l.filterMap (fun row => row.newIdx)).length :=
  countP_isSome_filterMap (fun row => row.newIdx) l

theorem getDiffRowsAux_shape (parts : List DiffPart) : ∀ o n : Nat,
    ∀ row ∈ getDiffRowsAux parts o n,
      (∃ k t, row = ⟨none, some k, "add", t⟩) ∨
      (∃ k t, row = ⟨some k, none, "del", t⟩) ∨
      (∃ j k t, row = ⟨some j, some k, "equal", t⟩) := by
  induction parts with
  | nil => simp [getDiffRowsAux]
  | cons p ps ih =>
    intro o n row hrow
    simp only [getDiffRowsAux, List.mem_append] at hrow
    rcases hrow with h | h
    · exact emitLines_shape p.added p.removed (partLines p.value) o n row h
    · exact ih _ _ row h

/-- C1, counterexample: the count claim fails as stated. For oldText the
empty string and newText two lines, the code emits no row carrying an old
line number, while splitting the normalized empty oldText on the newline
character yields one (empty) line segment. Evaluated through the
spec-modelled diff primitive. -/
theorem c1_count_counterexample :
    ¬((buildRows "" "A\nB").countP (fun row => row.oldIdx.isSome) =
      (jsSplitNl (normalizeText "")).length) := by decide

/-- C1, amended: provided the diff parts' old-side lines total the line
count of the old text and their new-side lines total the line count of the
new text — where a line count splits the normalized text on the newline
character and does not count a trailing empty segment, so the empty text has
zero lines and a final newline adds none — the rows carrying an old line
number count the old text's lines, and the rows carrying a new line number
count the new text's lines. -/
theorem c1_row_counts (oldText newText : String) (parts : List DiffPart)
    (hOld : oldSideLineSum parts = lineCount oldText)
    (hNew : newSideLineSum parts = lineCount newText) :
    (getDiffRows parts).countP (fun row => row.oldIdx.isSome) =
        lineCount oldText ∧
    (getDiffRows parts).countP (fun row => row.newIdx.isSome) =
        lineCount newText := by
  constructor
  · rw [← hOld, countP_oldIdx]
    simp only [getDiffRows, getDiffRowsAux_oldIdx]
    simp
  · rw [← hNew, countP_newIdx]
    simp only [getDiffRows, getDiffRowsAux_newIdx]
    simp

theorem c1_row_counts_witness :
    (getDiffRows [⟨false, true, "Old\n"⟩, ⟨true, false, "New\n"⟩,
        ⟨false, false, "Content"⟩]).countP (fun row => row.oldIdx.isSome) =
      lineCount "Old\nContent" ∧
    (getDiffRows [⟨false, true, "Old\n"⟩, ⟨true, false, "New\n"⟩,
        ⟨false, false, "Content"⟩]).countP (fun row => row.newIdx.isSome) =
      lineCount "New\nContent" :=
  c1_row_counts "Old\nContent" "New\nContent" _ (by decide) (by decide)

/-- C2: in the rows produced by getDiffRows from any diff-part list (hence
for every pair of input texts, whatever the diff primitive returns for
them), the old line numbers restricted to the rows where they are present
are strictly increasing in sequence order, and likewise the new line
numbers. -/
theorem c2_indices_strictly_increasing (parts : List DiffPart) :
    ((getDiffRows parts).filterMap (fun row => row.oldIdx)).Pairwise
        (· < ·) ∧
    ((getDiffRows parts).filterMap (fun row => row.newIdx)).Pairwise
        (· < ·) := by
  simp only [getDiffRows, getDiffRowsAux_oldIdx, getDiffRowsAux_newIdx]
  exact ⟨range1_pairwise 1 _, range1_pairwise 1 _⟩

/-- C3: every row produced by getDiffRows is classified by its kind — an
"add" row has no old line number and has a new one, a "del" row has no new
line number and has an old one, an "equal" row has both — and no row lacks
both. The source tags "add", "del", "equal" are the added/removed/unchanged
kinds of the claim. -/
theorem c3_kind_determines_presence (parts : List DiffPart) :
    ∀ row ∈ getDiffRows parts,
      (row.kind = "add" → row.oldIdx = none ∧ row.newIdx ≠ none) ∧
      (row.kind = "del" → row.newIdx = none ∧ row.oldIdx ≠ none) ∧
      (row.kind = "equal" → row.oldIdx ≠ none ∧ row.newIdx ≠ none) ∧
      ¬(row.oldIdx = none ∧ row.newIdx = none) := by
  intro row hrow
  rcases getDiffRowsAux_shape parts 1 1 row hrow with
    ⟨k, t, rfl⟩ | ⟨k, t, rfl⟩ | ⟨j, k, t, rfl⟩
  · exact ⟨fun _ => ⟨rfl, by simp⟩,
      fun hk => absurd hk (by decide : ("add" : String) ≠ "del"),
      fun hk => absurd hk (by decide : ("add" : String) ≠ "equal"), by simp⟩
  · exact ⟨fun hk => absurd hk (by decide : ("del" : String) ≠ "add"),
      fun _ => ⟨rfl, by simp⟩,
      fun hk => absurd hk (by decide : ("del" : String) ≠ "equal"), by simp⟩
  · exact ⟨fun hk => absurd hk (by decide : ("equal" : String) ≠ "add"),
      fun hk => absurd hk (by decide : ("equal" : String) ≠ "del"),
      fun _ => ⟨by simp, by simp⟩, by simp⟩

theorem c3_kind_determines_presence_witness :
    ¬((⟨some 1, some 1, "equal", "x"⟩ : DiffRow).oldIdx = none ∧
      (⟨some 1, some 1, "equal", "x"⟩ : DiffRow).newIdx = none) :=
  (c3_kind_determines_presence [⟨false, false, "x"⟩]
    ⟨some 1, some 1, "equal", "x"⟩ (by decide)).2.2.2

/-- C4: on oldText "Old\nContent" and newText "New\nContent" the pipeline
yields exactly the removed row "Old" with old line 1, the added row "New"
with new line 1, and the unchanged row "Content" with lines 2 and 2, in this
order. Evaluated through the spec-modelled diff primitive. -/
theorem c4_mixed_case :
    buildRows "Old\nContent" "New\nContent" =
      [⟨some 1, none, "del", "Old"⟩, ⟨none, some 1, "add", "New"⟩,
        ⟨some 2, some 2, "equal", "Content"⟩] := by decide

/-- C5: diffing any text against itself yields only unchanged rows, each
with equal old and new line numbers (the non-emptiness assumption of the
claim is kept although the property also holds vacuously for the empty
text). Uses the spec-modelled diff primitive, for which identical token
lists produce a single unchanged run. -/
theorem c5_identity (t : String) (_ht : t ≠ "") :
    ∀ row ∈ buildRows t t, row.kind = "equal" ∧ row.oldIdx = row.newIdx := by
  intro row hrow
  simp only [buildRows, specDiffLines, getDiffRows] at hrow
  rw [diffOpsF_self (tokenize t) _ (Nat.le_add_right _ _)] at hrow
  exact getDiffRowsAux_equal _ (mergeOps_keep (tokenize t)) 1 row hrow

theorem c5_identity_witness :
    ("x" : String) ≠ "" ∧
    ((⟨some 1, some 1, "equal", "x"⟩ : DiffRow).kind = "equal" ∧
      (⟨some 1, some 1, "equal", "x"⟩ : DiffRow).oldIdx =
        (⟨some 1, some 1, "equal", "x"⟩ : DiffRow).newIdx) :=
  ⟨by decide,
    c5_identity "x" (by decide) ⟨some 1, some 1, "equal", "x"⟩ (by decide)⟩

/-- C6: on empty oldText and newText "A\nB" the pipeline yields exactly two
added rows with new lines 1 and 2 and no old line numbers. Evaluated through
the spec-modelled diff primitive. -/
theorem c6_pure_addition :
    buildRows "" "A\nB" =
      [⟨none, some 1, "add", "A"⟩, ⟨none, some 2, "add", "B"⟩] := by decide

/-- C7, counterexample: the CRLF input does not produce the same rows as the
LF input — the removed line's text keeps its carriage return, because the
diff primitive is invoked on the un-normalized originals and the part blobs
are split on the bare newline only. Evaluated through the spec-modelled diff
primitive. -/
theorem c7_crlf_counterexample :
    ¬(buildRows "Old\r\nContent" "New\nContent" =
      buildRows "Old\nContent" "New\nContent") := by decide

/-- C7, amended: the CRLF case produces the same kinds and the same line
numbers as the LF case, and the same texts except that the removed row's
text is "Old\r" — the carriage return survives — instead of "Old". -/
theorem c7_crlf_amended :
    buildRows "Old\r\nContent" "New\nContent" =
      [⟨some 1, none, "del", "Old\r"⟩, ⟨none, some 1, "add", "New"⟩,
        ⟨some 2, some 2, "equal", "Content"⟩] := by decide

/-- C9: the old line numbers present in the rows produced by getDiffRows
from any diff-part list form exactly the contiguous sequence 1, 2, ..., K
where K is the number of rows carrying an old line number, and likewise the
new line numbers. -/
theorem c9_indices_contiguous (parts : List DiffPart) :
    (getDiffRows parts).filterMap (fun row => row.oldIdx) =
      List.range' 1
        ((getDiffRows parts).countP (fun row => row.oldIdx.isSome)) ∧
    (getDiffRows parts).filterMap (fun row => row.newIdx) =
      List.range' 1
        ((getDiffRows parts).countP (fun row => row.newIdx.isSome)) := by
  rw [countP_oldIdx, countP_newIdx]
  simp only [getDiffRows, getDiffRowsAux_oldIdx, getDiffRowsAux_newIdx]
  simp

/-- C10: a diff part whose text blob is the empty string contributes no rows
and moves no counter, so deleting it from anywhere in the part list leaves
the output unchanged; and the pipeline on two empty texts yields no rows at
all (the single-unchanged-empty-row alternative never occurs; the
spec-modelled diff primitive supplies the concrete empty diff). -/
theorem c10_empty_value_parts :
    (∀ (l1 l2 : List DiffPart) (p : DiffPart), p.value = "" →
      getDiffRows (l1 ++ p :: l2) = getDiffRows (l1 ++ l2)) ∧
    buildRows "" "" = [] := by
  constructor
  · intro l1 l2 p hp
    simp only [getDiffRows]
    exact getDiffRowsAux_skip_empty l1 l2 p hp 1 1
  · decide

theorem c10_empty_value_parts_witness :
    getDiffRows ([] ++ (⟨false, false, ""⟩ : DiffPart) :: []) =
      getDiffRows ([] ++ []) :=
  c10_empty_value_parts.1 [] [] ⟨false, false, ""⟩ rfl

end MD
